import Mathlib

/-!
Verification development for the Debian mirror selector
(`src/mirror-selector.go`).

The Go program parses the Debian full mirror list into `site` records
(the record-assembly loop in `main`, lines 148-213), fans each record out
to a scorer goroutine via `scoringDispatcher` (lines 254-262), scores it
in `score` (lines 270-273), and collects the results in
`resultsAccumulator` (lines 289-313).

We embed those parts shallowly:

* the sibling-walking classification of HTML nodes is abstracted into a
  `Token` stream (one constructor per marker kind the loop recognises,
  carrying exactly the data the loop extracts from the node and, where
  the loop consumes the next sibling as a payload, an `Option` payload
  whose `none` models a missing or ill-shaped sibling);
* Go runtime panics (nil-map assignment, out-of-range index) and
  `log.Fatalln` exits both abort the run with no output; they are
  modelled as distinct `ParseError` values of an `Except`;
* the concurrent dispatcher/scorer/accumulator pipeline is modelled by
  an explicit event alphabet (`Event`) and a step function on the
  accumulator's state, run over an arbitrary finite interleaving.
-/

/-- The fields of `net/url.URL` that `mirror-selector.go` ever touches. -/
structure URL where
  Scheme : String
  Host : String
  Path : String
deriving DecidableEq, Repr

/-- Go `site` struct (lines 237-244).  `PackProtocols` is a Go map from
protocol name to `*url.URL`; we model the map as an association list
wrapped in `Option` (a `none` map is Go's nil map, whose zero value a
fresh `var s site` has; writing to it panics) and the nullable pointer
value as `Option URL`. -/
structure site where
  Hosts : List String
  SiteType : String
  Architectures : List String
  PackProtocols : Option (List (String × Option URL))
  Score : Int
deriving DecidableEq, Repr

/-- The zero value of `var s site` before any `Site:` marker is seen:
nil slices, empty strings, nil map, score 0. -/
def emptySite : site :=
  { Hosts := [], SiteType := "", Architectures := [], PackProtocols := none, Score := 0 }

/-- Payload of a `Packages over <protocol>:` marker: the following `tt`
sibling.  `href` is the result of `url.Parse` on the `href` attribute of
its first child (`none` models a parse error), `text` its inner text. -/
structure PackPayload where
  href : Option URL
  text : String
deriving DecidableEq, Repr

/-- One classified sibling node of the document walk (lines 148-213).
`siteStart` carries the inner text of the following `tt` sibling
(`none` when that sibling is missing or not a `tt`); `packageURL`
likewise carries an optional payload plus the protocol name extracted
from the marker's own text; `archList` and `siteType` carry the
trimmed text of the marker node itself; `country`, `br` and `plain`
mutate nothing. -/
inductive Token where
  | country : Token
  | siteStart : Option String → Token
  | packageURL : String → Option PackPayload → Token
  | archList : String → Token
  | siteType : String → Token
  | br : Token
  | plain : Token
deriving DecidableEq, Repr

/-- How a run of the parsing loop aborts.  The `fatal*` values are
`log.Fatalln` calls in the source; the `panic*` values are Go runtime
panics the source can hit.  All abort the process before any output. -/
inductive ParseError where
  | fatalSiteURL : ParseError
  | fatalPackageURL : ParseError
  | fatalURLParse : ParseError
  | panicNilMapWrite : ParseError
  | panicIndexOutOfRange : ParseError
deriving DecidableEq, Repr

/-- Go `strings.Split` for a single-character separator: split around
every occurrence, keeping empty fields; never returns an empty list. -/
def goSplitChar (c : Char) : List Char → List (List Char)
  | [] => [[]]
  | x :: xs =>
    match goSplitChar c xs with
    | [] => [[]]
    | y :: ys => if x = c then [] :: y :: ys else (x :: y) :: ys

/-- Go strings.Split for the one-character separators used at lines 174 and 209. -/
def goSplit (s : String) (c : Char) : List String :=
  (goSplitChar c s.toList).map (fun l => String.mk l)

/-- Go `strings.TrimSpace`: drop whitespace from both ends. -/
def goTrimSpace (s : String) : String :=
  String.mk (((s.toList.dropWhile Char.isWhitespace).reverse.dropWhile
    Char.isWhitespace).reverse)

/-- Go map assignment `m[k] = v`: overwrite the entry for `k` if
present, otherwise add one. -/
def mapInsert : List (String × Option URL) → String → Option URL → List (String × Option URL)
  | [], k, v => [(k, v)]
  | (k', v') :: rest, k, v =>
    if k' = k then (k, v) :: rest else (k', v') :: mapInsert rest k v

/-- Go map lookup `m[k]`: `some v` iff key `k` is present with value `v`. -/
def lookupKV : List (String × Option URL) → String → Option (Option URL)
  | [], _ => none
  | (k, v) :: rest, q => if k = q then some v else lookupKV rest q

/-- The loop state of the record-assembly loop: the accumulated `sites`
slice, the current `s` variable, and whether a `Site:` marker has been
seen (`siteIndex != -1` in the source). -/
structure AsmState where
  sites : List site
  cur : site
  opened : Bool
deriving DecidableEq, Repr

/-- State at loop entry: empty slice, zero-valued `s`, `siteIndex = -1`. -/
def initState : AsmState :=
  { sites := [], cur := emptySite, opened := false }

/-- One iteration of the classification loop (lines 148-213) on an
already-classified token.  Faithful points: the `Site:` branch emits
the previous record only when one is open but always replaces `s`; the
`Packages over` branch handles exactly the protocol strings `"HTTP"`
and `"rsync"`, stores a nil endpoint for every other protocol, panics
on a nil `PackProtocols` map (record not yet opened) and, for
`"rsync"`, on an empty `Hosts` slice; the `archList` and `siteType`
branches mutate the current `s` unconditionally, open or not. -/
def processToken (st : AsmState) : Token → Except ParseError AsmState
  | Token.country => Except.ok st
  | Token.br => Except.ok st
  | Token.plain => Except.ok st
  | Token.siteStart payload =>
    match payload with
    | none => Except.error ParseError.fatalSiteURL
    | some text =>
      let sites' := if st.opened then st.sites ++ [st.cur] else st.sites
      Except.ok { sites := sites',
                  cur := { emptySite with
                             Hosts := goSplit text ',',
                             PackProtocols := some [] },
                  opened := true }
  | Token.packageURL protocol payload =>
    match payload with
    | none => Except.error ParseError.fatalPackageURL
    | some p =>
      let stored : Except ParseError (Option URL) :=
        if protocol = "HTTP" then
          match p.href with
          | none => Except.error ParseError.fatalURLParse
          | some u => Except.ok (some { u with Scheme := "http" })
        else if protocol = "rsync" then
          match st.cur.Hosts with
          | [] => Except.error ParseError.panicIndexOutOfRange
          | h :: _ => Except.ok (some { Scheme := "rsync", Host := h, Path := goTrimSpace p.text })
        else
          Except.ok none
      match stored with
      | Except.error e => Except.error e
      | Except.ok v =>
        match st.cur.PackProtocols with
        | none => Except.error ParseError.panicNilMapWrite
        | some m =>
          Except.ok { st with cur := { st.cur with PackProtocols := some (mapInsert m protocol v) } }
  | Token.archList text =>
    Except.ok { st with cur := { st.cur with Architectures := goSplit text ' ' } }
  | Token.siteType text =>
    Except.ok { st with cur := { st.cur with SiteType := text } }

/-- Run the loop over a token list, aborting at the first error. -/
def runTokens (st : AsmState) : List Token → Except ParseError AsmState
  | [] => Except.ok st
  | t :: ts =>
    match processToken st t with
    | Except.error e => Except.error e
    | Except.ok st' => runTokens st' ts

/-- The whole record-assembly pass: run the loop, then perform the
unconditional end-of-document `sites = append(sites, &s)` (line 152). -/
def parseSites (ts : List Token) : Except ParseError (List site) :=
  match runTokens initState ts with
  | Except.error e => Except.error e
  | Except.ok st => Except.ok (st.sites ++ [st.cur])

/-- Number of `SiteStart` tokens in a stream. -/
def countSiteStarts : List Token → Nat
  | [] => 0
  | Token.siteStart _ :: ts => countSiteStarts ts + 1
  | _ :: ts => countSiteStarts ts

/-- Selection Policy (the run's immutable configuration, assembled from
the CLI options at lines 34-57). -/
structure Policy where
  release : String
  architecture : String
  requiredProtocols : List String
  includeNonfree : Bool
  includeSourcePackages : Bool
deriving DecidableEq, Repr

/-- The keys of a record's protocol-endpoint map (empty for a nil map). -/
def packKeys (s : site) : List String :=
  match s.PackProtocols with
  | none => []
  | some m => m.map (fun kv => kv.1)

/-- Modelled from the spec: the Criteria Filter of §4.2 — the Go source
contains no such function (the dispatcher's guard is the literal
`if true`, line 256).  True iff the policy's architecture is a member of
the record's architecture list (the "serves all" marking, which has no
representation in the source's `site` struct, is modelled as the
literal architecture `"all"` appearing in that list) and every required
protocol is a key of the record's protocol-endpoint map. -/
def criteriaFilter (s : site) (p : Policy) : Bool :=
  (s.Architectures.contains p.architecture || s.Architectures.contains "all")
    && p.requiredProtocols.all (fun q => (packKeys s).contains q)

/-- Go scoringDispatcher (lines 254-262): the records for which a scorer
goroutine is launched.  The guard in the source is the literal
`if true`, so the filter kept here is `fun _ => true`. -/
def scoringDispatcher (sites : List site) : List site :=
  sites.filter (fun _ => true)

/-- Go score (lines 270-273): writes the constant score 0 to the record —
no connection is attempted — and hands the record on. -/
def score (s : site) : site :=
  { s with Score := 0 }

/-- One event on the accumulator's three incoming channels. -/
inductive Event where
  | created : Event
  | noMore : Event
  | scoreDelivery : site → Event
deriving DecidableEq, Repr

/-- The trace a single scorer goroutine contributes to the `scores`
channel: exactly one delivery, of the record it scored. -/
def scorerTrace (s : site) : List Event :=
  [Event.scoreDelivery (score s)]

/-- The loop state of `resultsAccumulator` (lines 289-313): the
`results` slice, the `done` flag, the live-`scorers` count, plus a
`finished` flag marking that the function has returned (events arriving
after the return are not consumed). -/
structure AccState where
  results : List Int
  done : Bool
  scorers : Int
  finished : Bool
deriving DecidableEq, Repr

/-- The state `resultsAccumulator` starts in. -/
def accInit : AccState :=
  { results := [], done := false, scorers := 0, finished := false }

/-- One turn of the accumulator's `select` loop.  A `created` signal
increments `scorers`; `noMore` sets `done` and returns if `scorers` is
already 0; a score delivery appends the delivered record's `Score` to
`results` (there is no heap — the source's `//Heap` comment marks the
unimplemented step), decrements `scorers`, and returns once `done`
holds and the count reaches 0. -/
def accStep (st : AccState) : Event → AccState
  | Event.created =>
    if st.finished then st else { st with scorers := st.scorers + 1 }
  | Event.noMore =>
    if st.finished then st
    else if st.scorers = 0 then { st with done := true, finished := true }
    else { st with done := true }
  | Event.scoreDelivery s =>
    if st.finished then st
    else
      let r := st.results ++ [s.Score]
      let sc := st.scorers - 1
      if st.done = true ∧ sc = 0 then { st with results := r, scorers := sc, finished := true }
      else { st with results := r, scorers := sc }

/-- Go resultsAccumulator run over a finite interleaving of channel events. -/
def resultsAccumulator (es : List Event) : AccState :=
  es.foldl accStep accInit

/-- Count of `created` signals in an interleaving. -/
def countCreated : List Event → Nat
  | [] => 0
  | Event.created :: es => countCreated es + 1
  | _ :: es => countCreated es

/-- Count of score deliveries in an interleaving. -/
def countScores : List Event → Nat
  | [] => 0
  | Event.scoreDelivery _ :: es => countScores es + 1
  | _ :: es => countScores es

/-- Count of `noMore` signals in an interleaving. -/
def countNoMore : List Event → Nat
  | [] => 0
  | Event.noMore :: es => countNoMore es + 1
  | _ :: es => countNoMore es

/-- Whether the `noMore` signal occurs in an interleaving. -/
def seenNoMore : List Event → Bool
  | [] => false
  | Event.noMore :: _ => true
  | _ :: es => seenNoMore es

/-- The Dispatcher's ordering contract (§4.3), as a property of the
interleaving: every score delivery is preceded by a matching creation
signal.  `k` is the surplus of creations over deliveries so far. -/
def validFrom (k : Nat) : List Event → Bool
  | [] => true
  | Event.created :: es => validFrom (k + 1) es
  | Event.noMore :: es => validFrom k es
  | Event.scoreDelivery _ :: es =>
    match k with
    | 0 => false
    | k' + 1 => validFrom k' es

/-- Deliveries never outrun creations, from the start. -/
def precedenceOK (es : List Event) : Bool :=
  validFrom 0 es

/-- The records delivered on the `scores` channel in an interleaving. -/
def deliveredSites : List Event → List site
  | [] => []
  | Event.scoreDelivery s :: es => s :: deliveredSites es
  | _ :: es => deliveredSites es

/-- The protocol-endpoint map entry for key `q` after processing token
`t` from state `st`: `none` when the run aborted (or the key is
absent), `some v` when the key is present with endpoint `v`. -/
def packEndpointAfter (st : AsmState) (t : Token) (q : String) : Option (Option URL) :=
  match processToken st t with
  | Except.error _ => none
  | Except.ok st' =>
    match st'.cur.PackProtocols with
    | none => none
    | some m => lookupKV m q

/-- Number of records the whole assembly pass emits: `none` when the
run aborts, `some n` when it completes with `n` records. -/
def emittedCount (ts : List Token) : Option Nat :=
  match parseSites ts with
  | Except.error _ => none
  | Except.ok l => some l.length

/-- Well-formed marker nesting relative to whether a `Site:` marker has
already been seen: every `siteStart`/`packageURL` payload sibling is
present, every `HTTP` payload carries a parseable absolute URL, and
every `packageURL`/`archList`/`siteType` marker follows a `siteStart`. -/
def wfFrom : Bool → List Token → Bool
  | _, [] => true
  | seen, Token.country :: ts => wfFrom seen ts
  | seen, Token.br :: ts => wfFrom seen ts
  | seen, Token.plain :: ts => wfFrom seen ts
  | _, Token.siteStart none :: _ => false
  | _, Token.siteStart (some _) :: ts => wfFrom true ts
  | seen, Token.packageURL protocol payload :: ts =>
    (seen &&
      (match payload with
       | none => false
       | some p => if protocol = "HTTP" then p.href.isSome else true)) &&
      wfFrom seen ts
  | seen, Token.archList _ :: ts => seen && wfFrom seen ts
  | seen, Token.siteType _ :: ts => seen && wfFrom seen ts

/-- Well-formed marker nesting for a whole document. -/
def wellFormed (ts : List Token) : Bool := wfFrom false ts

/-- Invariant of the assembly loop state: once a record is open, its
host list is non-empty (Go `strings.Split` never yields an empty
slice) and its protocol map has been allocated. -/
def GoodState (st : AsmState) : Prop :=
  st.opened = true → st.cur.Hosts ≠ [] ∧ st.cur.PackProtocols.isSome = true

/-- The accumulator's return condition, as a property of a consumed
prefix: the `noMore` signal has been received and score deliveries
balance creation signals. -/
def finishCond (es : List Event) : Bool :=
  seenNoMore es && (countScores es == countCreated es)

/-- Ascending (non-strict) sortedness of a score list. -/
def sortedAsc : List Int → Bool
  | [] => true
  | [_] => true
  | a :: b :: r => decide (a ≤ b) && sortedAsc (b :: r)

/-- All scores in a list are zero. -/
def allZero (l : List Int) : Bool :=
  l.all (fun r => r == 0)

/-- A record serving only `arm64` with an empty protocol map: it fails
both conditions of the spec's Criteria Filter for an `amd64`+`https`
policy. -/
def dispSiteCex : site :=
  { Hosts := ["mirror.example.org"], SiteType := "Push-Primary",
    Architectures := ["arm64"], PackProtocols := some [], Score := 0 }

/-- The default-like policy: `amd64`, protocols `https`. -/
def dispPolicyCex : Policy :=
  { release := "stable", architecture := "amd64", requiredProtocols := ["https"],
    includeNonfree := false, includeSourcePackages := false }

/-- A record whose only host is unreachable — every probe of it would
fail. -/
def probeSiteCex : site :=
  { Hosts := ["unreachable.invalid"], SiteType := "", Architectures := ["amd64"],
    PackProtocols := some [("HTTPS", none)], Score := 42 }

/-- An accumulator-interface run delivering scores 5 then 3 (each
delivery preceded by its creation signal). -/
def deliveryRunCex : List Event :=
  [Event.created, Event.created,
   Event.scoreDelivery { emptySite with Hosts := ["b.example"], Score := 5 },
   Event.scoreDelivery { emptySite with Hosts := ["a.example"], Score := 3 },
   Event.noMore]

/-- A small valid interleaving: one creation, its delivery, `noMore`. -/
def accRunEx : List Event :=
  [Event.created, Event.scoreDelivery (score emptySite), Event.noMore]

/-- A `Packages over https:` marker following a `Site:` marker, with a
perfectly good absolute URL in its payload. -/
def httpsTokens : List Token :=
  [Token.siteStart (some "mirror.example.org"),
   Token.packageURL "https"
     (some { href := some { Scheme := "https", Host := "mirror.example.org", Path := "/debian/" },
             text := "/debian/" })]

/-- A well-formed two-site token stream exercising every marker kind. -/
def wfTokensEx : List Token :=
  [Token.country,
   Token.siteStart (some "a.example,b.example"),
   Token.archList "amd64 i386",
   Token.packageURL "HTTP"
     (some { href := some { Scheme := "https", Host := "a.example", Path := "/debian/" },
             text := "x" }),
   Token.siteType "Push",
   Token.br,
   Token.siteStart (some "c.example"),
   Token.packageURL "rsync" (some { href := none, text := " debian/ " }),
   Token.packageURL "FTP" (some { href := none, text := "y" }),
   Token.plain]

/-- A token stream for the determinism witness. -/
def detTokens : List Token :=
  [Token.siteStart (some "a.example"), Token.archList "amd64"]

/-- A loop state with an open record, for witnesses about `packageURL`
processing. -/
def openStateEx : AsmState :=
  { sites := [],
    cur := { emptySite with Hosts := ["m.example.org"], PackProtocols := some [] },
    opened := true }

/-- A record whose pre-scoring `Score` field is (arbitrarily) 9. -/
def c10Site : site :=
  { Hosts := ["x.example"], SiteType := "", Architectures := [],
    PackProtocols := some [], Score := 9 }

/-- A pipeline interleaving whose only delivery went through `score`. -/
def c10Events : List Event :=
  [Event.created, Event.scoreDelivery (score c10Site), Event.noMore]

/-! ### Helper lemmas -/

lemma goSplitChar_ne_nil (c : Char) (l : List Char) : goSplitChar c l ≠ [] := by
  cases l with
  | nil => simp [goSplitChar]
  | cons x xs =>
    rw [goSplitChar]
    rcases goSplitChar c xs with _ | ⟨y, ys⟩
    · simp
    · by_cases h : x = c <;> simp [h]

lemma goSplit_ne_nil (s : String) (c : Char) : goSplit s c ≠ [] := by
  unfold goSplit
  intro h
  exact goSplitChar_ne_nil c s.toList (List.map_eq_nil_iff.mp h)

lemma lookupKV_mapInsert (m : List (String × Option URL)) (k : String) (v : Option URL) :
    lookupKV (mapInsert m k v) k = some v := by
  induction m with
  | nil => simp [mapInsert, lookupKV]
  | cons kv rest ih =>
    rcases kv with ⟨k', v'⟩
    by_cases h : k' = k
    · simp [mapInsert, h, lookupKV]
    · simp [mapInsert, h, lookupKV, ih]

lemma countCreated_append (es fs : List Event) :
    countCreated (es ++ fs) = countCreated es + countCreated fs := by
  induction es with
  | nil => simp [countCreated]
  | cons e es ih =>
    cases e with
    | created => simp [countCreated, ih]; omega
    | noMore => simp [countCreated, ih]
    | scoreDelivery s => simp [countCreated, ih]

lemma countScores_append (es fs : List Event) :
    countScores (es ++ fs) = countScores es + countScores fs := by
  induction es with
  | nil => simp [countScores]
  | cons e es ih =>
    cases e with
    | created => simp [countScores, ih]
    | noMore => simp [countScores, ih]
    | scoreDelivery s => simp [countScores, ih]; omega

lemma seenNoMore_append (es fs : List Event) :
    seenNoMore (es ++ fs) = (seenNoMore es || seenNoMore fs) := by
  induction es with
  | nil => simp [seenNoMore]
  | cons e es ih => cases e <;> simp [seenNoMore, ih]

lemma deliveredSites_append (es fs : List Event) :
    deliveredSites (es ++ fs) = deliveredSites es ++ deliveredSites fs := by
  induction es with
  | nil => simp [deliveredSites]
  | cons e es ih => cases e <;> simp [deliveredSites, ih]

lemma resultsAccumulator_append (es : List Event) (e : Event) :
    resultsAccumulator (es ++ [e]) = accStep (resultsAccumulator es) e := by
  simp [resultsAccumulator, List.foldl_append]

lemma validFrom_counts (es : List Event) : ∀ k, validFrom k es = true →
    countScores es ≤ k + countCreated es := by
  induction es with
  | nil => intro k _; simp [countScores]
  | cons e es ih =>
    intro k h
    cases e with
    | created =>
      rw [validFrom] at h
      have := ih (k + 1) h
      simp only [countScores, countCreated] at *
      omega
    | noMore =>
      rw [validFrom] at h
      have := ih k h
      simp only [countScores, countCreated] at *
      omega
    | scoreDelivery s =>
      cases k with
      | zero => rw [validFrom] at h; exact absurd h (by simp)
      | succ k' =>
        rw [validFrom] at h
        have := ih k' h
        simp only [countScores, countCreated] at *
        omega

lemma validFrom_append (es : List Event) (e : Event) : ∀ k,
    validFrom k (es ++ [e]) = true → validFrom k es = true := by
  induction es with
  | nil => intro k _; simp [validFrom]
  | cons f es ih =>
    intro k h
    cases f with
    | created =>
      rw [List.cons_append, validFrom] at h
      rw [validFrom]
      exact ih _ h
    | noMore =>
      rw [List.cons_append, validFrom] at h
      rw [validFrom]
      exact ih _ h
    | scoreDelivery s =>
      cases k with
      | zero => rw [List.cons_append, validFrom] at h; exact absurd h (by simp)
      | succ k' =>
        rw [List.cons_append, validFrom] at h
        rw [validFrom]
        exact ih _ h

lemma validFrom_take (es : List Event) : ∀ n k,
    validFrom k es = true → validFrom k (es.take n) = true := by
  induction es with
  | nil => intro n k _; simp [validFrom]
  | cons e es ih =>
    intro n k h
    cases n with
    | zero => simp [validFrom]
    | succ n' =>
      cases e with
      | created =>
        rw [validFrom] at h
        rw [List.take_succ_cons, validFrom]
        exact ih n' _ h
      | noMore =>
        rw [validFrom] at h
        rw [List.take_succ_cons, validFrom]
        exact ih n' _ h
      | scoreDelivery s =>
        cases k with
        | zero => rw [validFrom] at h; exact absurd h (by simp)
        | succ k' =>
          rw [validFrom] at h
          rw [List.take_succ_cons, validFrom]
          exact ih n' _ h

/-! ### Claim theorems -/

/-- C1: the claim says a record is dispatched iff it passes the
Criteria Filter.  In the source the dispatcher's guard is the literal
`if true` (line 256): here is a record that fails both filter
conditions for an `amd64`+`https` policy — its architecture list does
not contain the policy's architecture and its protocol map lacks the
required protocol — yet `scoringDispatcher` dispatches it. -/
theorem scoringDispatcher_dispatches_filtered_out_record :
    criteriaFilter dispSiteCex dispPolicyCex = false ∧
      scoringDispatcher [dispSiteCex] = [dispSiteCex] := by
  refine ⟨by decide, by decide⟩

/-- C2: the claim says the accumulator returns the (record, score)
pairs sorted ascending by score with a stable tie-break.  The source
appends each delivered record's bare score to a plain slice (its heap
is the unimplemented `//Heap` comment): a run whose deliveries arrive
as scores 5 then 3 completes and returns `[5, 3]`, which is not sorted
ascending — and contains no records at all, only scores. -/
theorem resultsAccumulator_returns_unsorted_delivery_order :
    (resultsAccumulator deliveryRunCex).finished = true ∧
      (resultsAccumulator deliveryRunCex).results = [5, 3] ∧
      sortedAsc (resultsAccumulator deliveryRunCex).results = false := by
  refine ⟨by decide, by decide, by decide⟩

/-- C4: the claim says a `ProtocolURL`, `Architectures` or `Type` token
before any `SiteStart` makes the assembler report `MalformedDirectory`
and terminate with no output.  The source has no such error: an orphan
`ProtocolURL` crashes with a nil-map-write runtime panic, and an
orphan `Architectures` marker is silently absorbed — the run completes
and even emits the mutated phantom record. -/
theorem assembler_orphan_marker_no_malformed_report :
    parseSites [Token.packageURL "HTTP"
        (some { href := some { Scheme := "https", Host := "ftp.debian.org", Path := "/debian/" },
                text := "x" })] =
      Except.error ParseError.panicNilMapWrite ∧
    parseSites [Token.archList "amd64 i386"] =
      Except.ok [{ emptySite with Architectures := ["amd64", "i386"] }] := by
  refine ⟨rfl, rfl⟩

/-- C5 counterexample: the claim includes token sequences with zero
`SiteStart` tokens, but the end-of-document append at line 152 is
unconditional, so a well-formed stream with no `SiteStart` at all
emits one phantom zero-valued record instead of zero records. -/
theorem assembler_phantom_record_on_zero_siteStarts :
    emittedCount [Token.country] = some 1 ∧
      countSiteStarts [Token.country] = 0 ∧
      emittedCount [Token.country] ≠ some (countSiteStarts [Token.country]) := by
  refine ⟨rfl, rfl, by decide⟩

/-- C6 counterexample: the claim says an `http` or `https` protocol
token stores the payload's absolute URL with its scheme normalized.
The source's switch handles only the exact string `"HTTP"` (and
`"rsync"`), so a `https` protocol token on an open record stores a nil
endpoint under the key `"https"`, not the payload's URL. -/
theorem packageURL_https_endpoint_is_nil :
    parseSites httpsTokens =
      Except.ok [{ emptySite with
                     Hosts := ["mirror.example.org"],
                     PackProtocols := some [("https", none)] }] ∧
    lookupKV [("https", none)] "https" = some none ∧
    lookupKV [("https", none)] "https" ≠
      some (some { Scheme := "https", Host := "mirror.example.org", Path := "/debian/" }) := by
  refine ⟨rfl, rfl, by decide⟩

/-- C7: the claim says a prober that cannot connect assigns the
distinguished worst-possible score and returns normally.  The source's
`score` never attempts a connection and has no worst-score value: for
a record whose only host is unreachable it writes the constant 0 (the
best possible value under lower-is-better) and delivers normally. -/
theorem score_assigns_zero_not_worst :
    score probeSiteCex = { probeSiteCex with Score := 0 } ∧
      scorerTrace probeSiteCex = [Event.scoreDelivery { probeSiteCex with Score := 0 }] :=
  ⟨rfl, rfl⟩

/-- C8: the Record Assembler is deterministic in its input — two runs
over the same token sequence produce identical record sequences.  The
embedded assembler is a pure function of the token stream (the Go loop
reads no other mutable state), so equal inputs give equal outputs. -/
theorem parseSites_deterministic (ts₁ ts₂ : List Token) (h : ts₁ = ts₂) :
    parseSites ts₁ = parseSites ts₂ := by rw [h]

/-- Witness for C8 at a concrete token stream. -/
theorem parseSites_deterministic_witness :
    detTokens = detTokens ∧ parseSites detTokens = parseSites detTokens :=
  ⟨rfl, parseSites_deterministic detTokens detTokens rfl⟩

/-- C9: a `ProtocolURL` token on an open record whose protocol is
neither the exact string `"HTTP"` nor `"rsync"` still inserts the
protocol name as a key of the record's protocol-endpoint map, with a
nil endpoint as its value. -/
theorem packageURL_other_protocol_keyed_nil (st : AsmState)
    (m : List (String × Option URL)) (protocol : String) (p : PackPayload)
    (_hop : st.opened = true) (hm : st.cur.PackProtocols = some m)
    (h1 : protocol ≠ "HTTP") (h2 : protocol ≠ "rsync") :
    packEndpointAfter st (Token.packageURL protocol (some p)) protocol = some none := by
  simp [packEndpointAfter, processToken, if_neg h1, if_neg h2, hm, lookupKV_mapInsert]

/-- Witness for C9: an `"HTTPS"` protocol token on a concrete open
record ends up as a key with a nil endpoint. -/
theorem packageURL_other_protocol_keyed_nil_witness :
    openStateEx.opened = true ∧
      openStateEx.cur.PackProtocols = some [] ∧
      packEndpointAfter openStateEx
        (Token.packageURL "HTTPS" (some { href := none, text := "z" })) "HTTPS" = some none :=
  ⟨rfl, rfl,
    packageURL_other_protocol_keyed_nil openStateEx [] "HTTPS"
      { href := none, text := "z" } rfl rfl (by decide) (by decide)⟩

/-- C6 (amended): on an open record, a `ProtocolURL` token whose
protocol is the exact string `"HTTP"` stores the payload's absolute
URL with its scheme set to `"http"`, and one whose protocol is
`"rsync"` stores an endpoint with scheme `"rsync"`, host the record's
first host, and path the payload's trimmed text — each under the
declared protocol name.  (Any other protocol, `"https"` included, is
stored with a nil endpoint.) -/
theorem packageURL_http_rsync_endpoints (st : AsmState)
    (m : List (String × Option URL)) (u : URL) (txt1 txt2 : String)
    (hr : Option URL) (h0 : String) (hs : List String)
    (_hop : st.opened = true) (hm : st.cur.PackProtocols = some m)
    (hh : st.cur.Hosts = h0 :: hs) :
    packEndpointAfter st
        (Token.packageURL "HTTP" (some { href := some u, text := txt1 })) "HTTP" =
      some (some { u with Scheme := "http" }) ∧
    packEndpointAfter st
        (Token.packageURL "rsync" (some { href := hr, text := txt2 })) "rsync" =
      some (some { Scheme := "rsync", Host := h0, Path := goTrimSpace txt2 }) := by
  constructor
  · simp [packEndpointAfter, processToken, hm, lookupKV_mapInsert]
  · simp [packEndpointAfter, processToken, hm, hh, lookupKV_mapInsert]

/-- Witness for the amended C6 at a concrete open record. -/
theorem packageURL_http_rsync_endpoints_witness :
    openStateEx.opened = true ∧
      openStateEx.cur.PackProtocols = some [] ∧
      openStateEx.cur.Hosts = ["m.example.org"] ∧
      (packEndpointAfter openStateEx
          (Token.packageURL "HTTP"
            (some { href := some { Scheme := "https", Host := "m.example.org", Path := "/d/" },
                    text := "a" })) "HTTP" =
        some (some { Scheme := "http", Host := "m.example.org", Path := "/d/" }) ∧
      packEndpointAfter openStateEx
          (Token.packageURL "rsync" (some { href := none, text := " debian/ " })) "rsync" =
        some (some { Scheme := "rsync", Host := "m.example.org", Path := "debian/" })) :=
  ⟨rfl, rfl, rfl, by
    have h := packageURL_http_rsync_endpoints openStateEx []
      { Scheme := "https", Host := "m.example.org", Path := "/d/" } "a" " debian/ "
      none "m.example.org" [] rfl rfl rfl
    refine ⟨?_, ?_⟩
    · rw [h.1]
    · rw [h.2]
      decide⟩

/-- Every score in the accumulator's result slice is the `Score` field
of some record delivered on the `scores` channel. -/
lemma resultsAccumulator_results_mem (es : List Event) :
    ∀ r ∈ (resultsAccumulator es).results, ∃ s, s ∈ deliveredSites es ∧ r = s.Score := by
  induction es using List.reverseRecOn with
  | nil => intro r hr; simp [resultsAccumulator, accInit] at hr
  | append_singleton es e ih =>
    intro r hr
    rw [resultsAccumulator_append] at hr
    by_cases hf : (resultsAccumulator es).finished
    · have hr' : r ∈ (resultsAccumulator es).results := by
        cases e <;> simpa [accStep, hf] using hr
      obtain ⟨s, hs, hrs⟩ := ih r hr'
      exact ⟨s, by simp [deliveredSites_append, hs], hrs⟩
    · cases e with
      | created =>
        have hr' : r ∈ (resultsAccumulator es).results := by
          simpa [accStep, hf] using hr
        obtain ⟨s, hs, hrs⟩ := ih r hr'
        exact ⟨s, by simp [deliveredSites_append, hs], hrs⟩
      | noMore =>
        have hr' : r ∈ (resultsAccumulator es).results := by
          by_cases hz : (resultsAccumulator es).scorers = 0 <;>
            simpa [accStep, hf, hz] using hr
        obtain ⟨s, hs, hrs⟩ := ih r hr'
        exact ⟨s, by simp [deliveredSites_append, hs], hrs⟩
      | scoreDelivery s =>
        have hr' : r ∈ (resultsAccumulator es).results ++ [s.Score] := by
          by_cases hc : (resultsAccumulator es).done = true ∧
              (resultsAccumulator es).scorers - 1 = 0 <;>
            simpa [accStep, hf, hc] using hr
        rcases List.mem_append.mp hr' with hl | hn
        · obtain ⟨s', hs', hrs⟩ := ih r hl
          exact ⟨s', by simp [deliveredSites_append, hs'], hrs⟩
        · refine ⟨s, by simp [deliveredSites_append, deliveredSites], ?_⟩
          simpa using hn

/-- C10: the scorer writes the constant score 0 to its record
(attempting no network measurement) and contributes exactly one
delivery; consequently, in any interleaving whose deliveries all come
from scorer tasks, every score in the final result slice is 0. -/
theorem score_zero_and_results_all_zero (s : site) (es : List Event)
    (hd : ∀ x ∈ deliveredSites es, ∃ s0, x = score s0) :
    (score s).Score = 0 ∧ scorerTrace s = [Event.scoreDelivery (score s)] ∧
      allZero (resultsAccumulator es).results = true := by
  refine ⟨rfl, rfl, ?_⟩
  rw [allZero, List.all_eq_true]
  intro r hr
  obtain ⟨s', hmem, hrs⟩ := resultsAccumulator_results_mem es r hr
  obtain ⟨s0, rfl⟩ := hd s' hmem
  simp [hrs, score]

/-- Witness for C10 at a concrete record and interleaving. -/
theorem score_zero_and_results_all_zero_witness :
    (score c10Site).Score = 0 ∧
      scorerTrace c10Site = [Event.scoreDelivery (score c10Site)] ∧
      allZero (resultsAccumulator c10Events).results = true :=
  score_zero_and_results_all_zero c10Site c10Events
    (by intro x hx
        refine ⟨c10Site, ?_⟩
        simpa [c10Events, deliveredSites] using hx)

/-- Processing a `packageURL` token whose payload is present (with a
parseable URL when the protocol is `"HTTP"`) on a state whose current
record has a non-empty host list and an allocated protocol map cannot
fail, and changes nothing but the protocol map. -/
lemma processToken_packageURL_shape (st : AsmState) (protocol : String) (p : PackPayload)
    (hm : st.cur.PackProtocols.isSome = true) (hh : st.cur.Hosts ≠ [])
    (hhttp : protocol = "HTTP" → p.href.isSome = true) :
    ∃ st', processToken st (Token.packageURL protocol (some p)) = Except.ok st' ∧
      st'.sites = st.sites ∧ st'.opened = st.opened ∧
      st'.cur.Hosts = st.cur.Hosts ∧ st'.cur.PackProtocols.isSome = true := by
  obtain ⟨m, hm'⟩ := Option.isSome_iff_exists.mp hm
  by_cases hH : protocol = "HTTP"
  · obtain ⟨u, hu⟩ := Option.isSome_iff_exists.mp (hhttp hH)
    subst hH
    refine ⟨{ st with cur := { st.cur with PackProtocols := some (mapInsert m "HTTP" (some { u with Scheme := "http" })) } }, ?_, rfl, rfl, rfl, rfl⟩
    simp [processToken, hu, hm']
  · by_cases hR : protocol = "rsync"
    · subst hR
      cases hosts : st.cur.Hosts with
      | nil => exact absurd hosts hh
      | cons h0 rest =>
        refine ⟨{ st with cur := { st.cur with PackProtocols := some (mapInsert m "rsync" (some { Scheme := "rsync", Host := h0, Path := goTrimSpace p.text })) } }, ?_, rfl, rfl, hosts, rfl⟩
        simp [processToken, hosts, hm']
    · refine ⟨{ st with cur := { st.cur with PackProtocols := some (mapInsert m protocol none) } }, ?_, rfl, rfl, rfl, rfl⟩
      simp [processToken, hH, hR, hm']

/-- Invariant run of the assembly loop over a well-formed suffix: no
error occurs, the loop stays in a good state, each `siteStart` token
contributes exactly one record (counting the still-open one), and the
loop ends open exactly when it started open or the suffix opened a
record. -/
lemma runTokens_spec : ∀ (ts : List Token) (st : AsmState),
    wfFrom st.opened ts = true → GoodState st →
    ∃ st', runTokens st ts = Except.ok st' ∧ GoodState st' ∧
      st'.sites.length + (if st'.opened = true then 1 else 0) =
        st.sites.length + (if st.opened = true then 1 else 0) + countSiteStarts ts ∧
      st'.opened = (st.opened || decide (0 < countSiteStarts ts)) := by
  intro ts
  induction ts with
  | nil =>
    intro st _ hg
    exact ⟨st, rfl, hg, by simp [countSiteStarts], by simp [countSiteStarts]⟩
  | cons t ts ih =>
    intro st hwf hg
    cases t with
    | country =>
      simp only [wfFrom] at hwf
      obtain ⟨st', h1, h2, h3, h4⟩ := ih st hwf hg
      refine ⟨st', ?_, h2, ?_, ?_⟩
      · simp only [runTokens, processToken]; exact h1
      · simp only [countSiteStarts]; exact h3
      · simp only [countSiteStarts]; exact h4
    | br =>
      simp only [wfFrom] at hwf
      obtain ⟨st', h1, h2, h3, h4⟩ := ih st hwf hg
      refine ⟨st', ?_, h2, ?_, ?_⟩
      · simp only [runTokens, processToken]; exact h1
      · simp only [countSiteStarts]; exact h3
      · simp only [countSiteStarts]; exact h4
    | plain =>
      simp only [wfFrom] at hwf
      obtain ⟨st', h1, h2, h3, h4⟩ := ih st hwf hg
      refine ⟨st', ?_, h2, ?_, ?_⟩
      · simp only [runTokens, processToken]; exact h1
      · simp only [countSiteStarts]; exact h3
      · simp only [countSiteStarts]; exact h4
    | siteStart payload =>
      cases payload with
      | none => simp only [wfFrom] at hwf; exact absurd hwf (by simp)
      | some text =>
        simp only [wfFrom] at hwf
        have hg1 : GoodState { sites := if st.opened then st.sites ++ [st.cur] else st.sites,
                               cur := { emptySite with
                                          Hosts := goSplit text ',',
                                          PackProtocols := some [] },
                               opened := true } := by
          intro _
          exact ⟨goSplit_ne_nil text ',', rfl⟩
        obtain ⟨st', h1, h2, h3, h4⟩ :=
          ih { sites := if st.opened then st.sites ++ [st.cur] else st.sites,
               cur := { emptySite with
                          Hosts := goSplit text ',',
                          PackProtocols := some [] },
               opened := true } hwf hg1
        refine ⟨st', ?_, h2, ?_, ?_⟩
        · simp only [runTokens, processToken]; exact h1
        · simp only [countSiteStarts]
          simp only at h3
          by_cases ho : st.opened = true
          · simp [ho] at h3 ⊢; omega
          · simp [Bool.not_eq_true] at ho
            simp [ho] at h3 ⊢; omega
        · simp only [countSiteStarts]
          simp only at h4
          rw [decide_eq_true (Nat.succ_pos (countSiteStarts ts)), Bool.or_true]
          simpa using h4
    | packageURL protocol payload =>
      simp only [wfFrom, Bool.and_eq_true] at hwf
      obtain ⟨⟨hop, hpay⟩, hwf'⟩ := hwf
      cases payload with
      | none => simp at hpay
      | some p =>
        have hg' := hg hop
        have hhttp : protocol = "HTTP" → p.href.isSome = true := by
          intro hH
          subst hH
          simpa using hpay
        obtain ⟨st1, he, hsites, hopened, hhosts, hmap⟩ :=
          processToken_packageURL_shape st protocol p hg'.2 hg'.1 hhttp
        have hg1 : GoodState st1 := by
          intro _
          exact ⟨hhosts ▸ hg'.1, hmap⟩
        have hwf1 : wfFrom st1.opened ts = true := by rw [hopened]; exact hwf'
        obtain ⟨st', h1', h2, h3, h4⟩ := ih st1 hwf1 hg1
        refine ⟨st', ?_, h2, ?_, ?_⟩
        · simp only [runTokens, he]; exact h1'
        · simp only [countSiteStarts]
          rw [hsites, hopened] at h3; exact h3
        · simp only [countSiteStarts]
          rw [hopened] at h4; exact h4
    | archList text =>
      simp only [wfFrom, Bool.and_eq_true] at hwf
      obtain ⟨_, hwf'⟩ := hwf
      obtain ⟨st', h1', h2, h3, h4⟩ :=
        ih { st with cur := { st.cur with Architectures := goSplit text ' ' } } hwf' hg
      refine ⟨st', ?_, h2, ?_, ?_⟩
      · simp only [runTokens, processToken]; exact h1'
      · simp only [countSiteStarts]; exact h3
      · simp only [countSiteStarts]; exact h4
    | siteType text =>
      simp only [wfFrom, Bool.and_eq_true] at hwf
      obtain ⟨_, hwf'⟩ := hwf
      obtain ⟨st', h1', h2, h3, h4⟩ :=
        ih { st with cur := { st.cur with SiteType := text } } hwf' hg
      refine ⟨st', ?_, h2, ?_, ?_⟩
      · simp only [runTokens, processToken]; exact h1'
      · simp only [countSiteStarts]; exact h3
      · simp only [countSiteStarts]; exact h4

/-- C5 (amended): for every token sequence with well-formed marker
nesting that contains at least one `SiteStart` token, the number of
records the assembler emits equals the number of `SiteStart` tokens.
(With zero `SiteStart` tokens the unconditional end-of-document append
emits one phantom record instead — see the counterexample.) -/
theorem parseSites_record_count (ts : List Token)
    (hwf : wellFormed ts = true) (hpos : 0 < countSiteStarts ts) :
    emittedCount ts = some (countSiteStarts ts) := by
  have hg0 : GoodState initState := by
    intro h
    simp [initState, emptySite] at h
  obtain ⟨st', h1, _, h3, h4⟩ := runTokens_spec ts initState hwf hg0
  have hop : st'.opened = true := by
    rw [h4]
    simp [initState, hpos]
  have hps : parseSites ts = Except.ok (st'.sites ++ [st'.cur]) := by
    simp only [parseSites, h1]
  simp only [emittedCount, hps]
  congr 1
  rw [hop] at h3
  simp [initState] at h3
  simp [h3]

/-- Witness for the amended C5 on a well-formed two-site stream that
exercises every marker kind. -/
theorem parseSites_record_count_witness :
    wellFormed wfTokensEx = true ∧ 0 < countSiteStarts wfTokensEx ∧
      emittedCount wfTokensEx = some (countSiteStarts wfTokensEx) :=
  ⟨by decide, by decide, parseSites_record_count wfTokensEx (by decide) (by decide)⟩

/-- Once `resultsAccumulator` has returned, later events leave its
outcome untouched. -/
lemma accStep_finished (st : AccState) (e : Event) (hf : st.finished = true) :
    accStep st e = st := by
  cases e <;> simp [accStep, hf]

/-- A `created` signal before the return increments the live count. -/
lemma accStep_created (st : AccState) (hf : st.finished = false) :
    accStep st Event.created = { st with scorers := st.scorers + 1 } := by
  simp [accStep, hf]

/-- A noMore signal with no live scorers returns at once. -/
lemma accStep_noMore_zero (st : AccState) (hf : st.finished = false)
    (hz : st.scorers = 0) :
    accStep st Event.noMore = { st with done := true, finished := true } := by
  simp [accStep, hf, hz]

/-- A noMore signal with live scorers only records that no more work comes. -/
lemma accStep_noMore_pos (st : AccState) (hf : st.finished = false)
    (hz : ¬ st.scorers = 0) :
    accStep st Event.noMore = { st with done := true } := by
  simp [accStep, hf, hz]

/-- A delivery that balances the last outstanding scorer after `noMore`
returns. -/
lemma accStep_score_fin (st : AccState) (s : site) (hf : st.finished = false)
    (hd : st.done = true) (hz : st.scorers - 1 = 0) :
    accStep st (Event.scoreDelivery s) =
      { st with results := st.results ++ [s.Score], scorers := 0, finished := true } := by
  simp [accStep, hf, hd, hz]

/-- Any other delivery just folds the score and decrements the count. -/
lemma accStep_score_cont (st : AccState) (s : site) (hf : st.finished = false)
    (hc : ¬ (st.done = true ∧ st.scorers - 1 = 0)) :
    accStep st (Event.scoreDelivery s) =
      { st with results := st.results ++ [s.Score], scorers := st.scorers - 1 } := by
  rw [accStep]
  rw [if_neg (by simp [hf])]
  simp only []
  rw [if_neg hc]

/-- Characterization of the accumulator's state after consuming any
interleaving that honours the creation-before-score contract: while it
has not returned, its live count is creations minus deliveries, `done`
records whether `noMore` arrived, and no consumed prefix satisfied the
return condition; once it has returned, the live count is 0, `done`
holds, and some consumed prefix satisfied the return condition. -/
lemma resultsAccumulator_state_spec : ∀ (es : List Event), precedenceOK es = true →
    (((resultsAccumulator es).finished = false →
        (resultsAccumulator es).scorers =
          (countCreated es : Int) - (countScores es : Int) ∧
        (resultsAccumulator es).done = seenNoMore es ∧
        ∀ m, finishCond (es.take m) = false) ∧
     ((resultsAccumulator es).finished = true →
        (resultsAccumulator es).scorers = 0 ∧
        (resultsAccumulator es).done = true ∧
        ∃ m, finishCond (es.take m) = true)) := by
  intro es
  induction es using List.reverseRecOn with
  | nil =>
    intro _
    constructor
    · intro _
      refine ⟨by simp [resultsAccumulator, accInit, countCreated, countScores], ?_, ?_⟩
      · simp [resultsAccumulator, accInit, seenNoMore]
      · intro m
        simp [finishCond, seenNoMore]
    · intro h
      simp [resultsAccumulator, accInit] at h
  | append_singleton es e ih =>
    intro hv
    have hv' : precedenceOK es = true := validFrom_append es e 0 hv
    obtain ⟨ihF, ihT⟩ := ih hv'
    have hSC : countScores es ≤ countCreated es := by
      have := validFrom_counts es 0 hv'
      omega
    rw [resultsAccumulator_append]
    by_cases hf : (resultsAccumulator es).finished = true
    · rw [accStep_finished _ _ hf]
      obtain ⟨hsc0, hdn1, m, hm⟩ := ihT hf
      constructor
      · intro hfin
        rw [hfin] at hf
        exact absurd hf (by simp)
      · intro _
        refine ⟨hsc0, hdn1, ?_⟩
        by_cases hm2 : m ≤ es.length
        · exact ⟨m, by rw [List.take_append_of_le_length hm2]; exact hm⟩
        · refine ⟨es.length, ?_⟩
          rw [List.take_append_of_le_length (le_refl _), List.take_length]
          rw [List.take_of_length_le (by omega)] at hm
          exact hm
    · have hf' : (resultsAccumulator es).finished = false := by
        simpa using hf
      obtain ⟨hsc, hdn, hall⟩ := ihF hf'
      cases e with
      | created =>
        rw [accStep_created _ hf']
        constructor
        · intro _
          refine ⟨?_, ?_, ?_⟩
          · dsimp only
            simp only [countCreated_append, countScores_append, countCreated, countScores]
            rw [hsc]
            push_cast
            ring
          · dsimp only
            simp only [seenNoMore_append, seenNoMore, Bool.or_false]
            exact hdn
          · intro m
            by_cases hm : m ≤ es.length
            · rw [List.take_append_of_le_length hm]; exact hall m
            · rw [List.take_of_length_le (by simp; omega)]
              simp only [finishCond, seenNoMore_append, seenNoMore, Bool.or_false,
                countScores_append, countCreated_append, countScores, countCreated]
              cases hsn : seenNoMore es
              · simp
              · simp only [Bool.true_and]
                exact beq_eq_false_iff_ne.mpr (by omega)
        · intro hfin
          dsimp only at hfin
          rw [hfin] at hf'
          exact absurd hf' (by simp)
      | noMore =>
        by_cases hz : (resultsAccumulator es).scorers = 0
        · rw [accStep_noMore_zero _ hf' hz]
          constructor
          · intro hfin
            dsimp only at hfin
            exact absurd hfin (by simp)
          · intro _
            refine ⟨hz, rfl, ?_⟩
            refine ⟨(es ++ [Event.noMore]).length, ?_⟩
            rw [List.take_length]
            simp only [finishCond, seenNoMore_append, seenNoMore, Bool.or_true,
              countScores_append, countCreated_append, countScores, countCreated,
              Bool.true_and]
            rw [hsc] at hz
            exact beq_iff_eq.mpr (by omega)
        · rw [accStep_noMore_pos _ hf' hz]
          constructor
          · intro _
            refine ⟨?_, ?_, ?_⟩
            · dsimp only
              simp only [countCreated_append, countScores_append, countCreated, countScores]
              rw [hsc]
              push_cast
              ring
            · dsimp only
              simp [seenNoMore_append, seenNoMore]
            · intro m
              by_cases hm : m ≤ es.length
              · rw [List.take_append_of_le_length hm]; exact hall m
              · rw [List.take_of_length_le (by simp; omega)]
                simp only [finishCond, seenNoMore_append, seenNoMore, Bool.or_true,
                  countScores_append, countCreated_append, countScores, countCreated,
                  Bool.true_and]
                rw [hsc] at hz
                exact beq_eq_false_iff_ne.mpr (by omega)
          · intro hfin
            dsimp only at hfin
            rw [hfin] at hf'
            exact absurd hf' (by simp)
      | scoreDelivery s =>
        have hS1 : countScores (es ++ [Event.scoreDelivery s]) = countScores es + 1 := by
          simp [countScores_append, countScores]
        have hSC1 : countScores es + 1 ≤ countCreated es := by
          have := validFrom_counts (es ++ [Event.scoreDelivery s]) 0 hv
          rw [hS1, countCreated_append] at this
          simp [countCreated] at this
          omega
        by_cases hc : (resultsAccumulator es).done = true ∧
            (resultsAccumulator es).scorers - 1 = 0
        · rw [accStep_score_fin _ _ hf' hc.1 hc.2]
          constructor
          · intro hfin
            dsimp only at hfin
            exact absurd hfin (by simp)
          · intro _
            refine ⟨rfl, hc.1, ?_⟩
            refine ⟨(es ++ [Event.scoreDelivery s]).length, ?_⟩
            rw [List.take_length]
            have hsn : seenNoMore es = true := by rw [← hdn]; exact hc.1
            simp only [finishCond, seenNoMore_append, seenNoMore, hsn, Bool.true_or,
              Bool.true_and, hS1, countCreated_append, countCreated]
            have := hc.2
            rw [hsc] at this
            exact beq_iff_eq.mpr (by omega)
        · rw [accStep_score_cont _ _ hf' hc]
          constructor
          · intro _
            refine ⟨?_, ?_, ?_⟩
            · dsimp only
              simp only [hS1, countCreated_append, countCreated]
              rw [hsc]
              push_cast
              ring
            · dsimp only
              simp only [seenNoMore_append, seenNoMore, Bool.or_false]
              exact hdn
            · intro m
              by_cases hm : m ≤ es.length
              · rw [List.take_append_of_le_length hm]; exact hall m
              · rw [List.take_of_length_le (by simp; omega)]
                simp only [finishCond, seenNoMore_append, seenNoMore, Bool.or_false,
                  hS1, countCreated_append, countCreated]
                cases hsn : seenNoMore es
                · simp
                · simp only [Bool.true_and]
                  have hd1 : (resultsAccumulator es).done = true := by rw [hdn]; exact hsn
                  have hz1 : ¬ (resultsAccumulator es).scorers - 1 = 0 := by
                    intro hz
                    exact hc ⟨hd1, hz⟩
                  rw [hsc] at hz1
                  exact beq_eq_false_iff_ne.mpr (by omega)
          · intro hfin
            dsimp only at hfin
            rw [hfin] at hf'
            exact absurd hf' (by simp)

/-- C3: over any finite interleaving of creation signals, one `noMore`
signal and score deliveries in which each delivery is preceded by its
matching creation signal, the accumulator's outstanding count never
goes negative, and it has returned after consuming a prefix exactly
when some consumed point had the `noMore` signal received and as many
score deliveries as creation signals — never before. -/
theorem resultsAccumulator_done_exactly (es : List Event)
    (hprec : precedenceOK es = true) (_hone : countNoMore es = 1) :
    (∀ n, 0 ≤ (resultsAccumulator (es.take n)).scorers) ∧
    (∀ n, ((resultsAccumulator (es.take n)).finished = true ↔
        ∃ m, m ≤ n ∧ seenNoMore (es.take m) = true ∧
          countScores (es.take m) = countCreated (es.take m))) := by
  have htake : ∀ n, precedenceOK (es.take n) = true := fun n => validFrom_take es n 0 hprec
  constructor
  · intro n
    obtain ⟨hF, hT⟩ := resultsAccumulator_state_spec (es.take n) (htake n)
    by_cases hf : (resultsAccumulator (es.take n)).finished = true
    · obtain ⟨h0, -, -⟩ := hT hf
      rw [h0]
    · obtain ⟨h0, -, -⟩ := hF (by simpa using hf)
      have hle := validFrom_counts (es.take n) 0 (htake n)
      rw [h0]
      omega
  · intro n
    obtain ⟨hF, hT⟩ := resultsAccumulator_state_spec (es.take n) (htake n)
    constructor
    · intro hf
      obtain ⟨-, -, m, hm⟩ := hT hf
      rw [List.take_take] at hm
      simp only [finishCond, Bool.and_eq_true] at hm
      exact ⟨min m n, Nat.min_le_right m n, hm.1, beq_iff_eq.mp hm.2⟩
    · rintro ⟨m, hmn, hsn, hcnt⟩
      by_contra hf
      have hf' : (resultsAccumulator (es.take n)).finished = false := by simpa using hf
      obtain ⟨-, -, hall⟩ := hF hf'
      have h := hall m
      rw [List.take_take, Nat.min_eq_left hmn] at h
      simp [finishCond, hsn, hcnt] at h

/-- Witness for C3 on the interleaving [created, delivery, noMore]:
the count stays non-negative and the accumulator is done exactly at
the end. -/
theorem resultsAccumulator_done_exactly_witness :
    precedenceOK accRunEx = true ∧ countNoMore accRunEx = 1 ∧
      0 ≤ (resultsAccumulator (accRunEx.take 2)).scorers ∧
      (resultsAccumulator (accRunEx.take 3)).finished = true :=
  ⟨by decide, by decide,
    (resultsAccumulator_done_exactly accRunEx (by decide) (by decide)).1 2,
    ((resultsAccumulator_done_exactly accRunEx (by decide) (by decide)).2 3).mpr
      ⟨3, by decide, by decide, by decide⟩⟩
